import Mathlib

/-!
Verification of the calculator repository: a shallow embedding of
`src/calculator/calculator.py` (four pure arithmetic functions) and
`src/calculator/calculator_class.py` (the stateful `Calculator` class)
into Lean 4, followed by theorems settling the behavioural claims.

Modelling choices:
* Python numbers (`int`/`float` mixed freely by the code) are modelled as `ℚ`.
  Python's `round` (banker's rounding on the binary float value) is modelled as
  round-half-to-even on the exact rational; no claim under verification touches
  a half-way case, so the tie-breaking rule does not affect any status.
* Python strings are Lean `String`s; the string operations the code uses
  (`f"..."` interpolation of numbers, `.split("=")`, `.strip()`, `float(...)`)
  are modelled by executable functions over `String.data` below.  `float(s)`
  raises on malformed input in Python; the model returns `Option ℚ` and the
  development proves the parse succeeds on every string the class produces,
  so the two never differ on reachable states.
* Methods that can raise return `Except String ℚ × Calculator`: the message of
  the raised `ValueError` together with the post-call state (mutations made
  before the raise, such as the error log entry in `divide`, persist).
-/

namespace Calc

/-- Character code of the decimal digit `d` (meaningful for `d < 10`),
modelling how Python renders a digit. -/
def digitChar (d : ℕ) : Char := Char.ofNat (48 + d)

/-- Inverse of `digitChar`: the value of a decimal digit character, `none`
for a non-digit. -/
def charDigit (c : Char) : Option ℕ :=
  if 48 ≤ c.toNat ∧ c.toNat ≤ 57 then some (c.toNat - 48) else none

/-- `c` is a decimal digit character. -/
def IsDigitCh (c : Char) : Prop := 48 ≤ c.toNat ∧ c.toNat ≤ 57

instance (c : Char) : Decidable (IsDigitCh c) := by unfold IsDigitCh; infer_instance

/-- Little-endian decimal digits of `n`, with explicit fuel so the recursion is
structural (hence kernel-reducible). -/
def digitsFuel : ℕ → ℕ → List ℕ
  | 0, _ => []
  | fuel + 1, n => if n = 0 then [] else (n % 10) :: digitsFuel fuel (n / 10)

/-- Little-endian decimal digits of `n` (`[]` for `0`). -/
def natDigits (n : ℕ) : List ℕ := digitsFuel n n

/-- Value of a little-endian decimal digit list. -/
def valLE : List ℕ → ℕ
  | [] => 0
  | d :: ds => d + 10 * valLE ds

theorem valLE_digitsFuel : ∀ (fuel n : ℕ), n ≤ fuel → valLE (digitsFuel fuel n) = n := by
  intro fuel
  induction fuel with
  | zero => intro n hn; interval_cases n; rfl
  | succ f ih =>
    intro n hn
    by_cases h0 : n = 0
    · subst h0; rfl
    · have hdiv : n / 10 ≤ f := by
        have : n / 10 < n := Nat.div_lt_self (Nat.pos_of_ne_zero h0) (by norm_num)
        omega
      simp only [digitsFuel, h0, if_false, valLE, ih (n / 10) hdiv]
      omega

theorem valLE_natDigits (n : ℕ) : valLE (natDigits n) = n :=
  valLE_digitsFuel n n le_rfl

theorem digitsFuel_lt : ∀ (fuel n : ℕ), ∀ d ∈ digitsFuel fuel n, d < 10 := by
  intro fuel
  induction fuel with
  | zero => intro n d hd; simp [digitsFuel] at hd
  | succ f ih =>
    intro n d hd
    by_cases h0 : n = 0
    · subst h0; simp [digitsFuel] at hd
    · simp only [digitsFuel, h0, if_false, List.mem_cons] at hd
      rcases hd with h | h
      · subst h; exact Nat.mod_lt _ (by norm_num)
      · exact ih (n / 10) d h

theorem digitsFuel_length_le : ∀ (fuel n e : ℕ), n < 10 ^ e →
    (digitsFuel fuel n).length ≤ e := by
  intro fuel
  induction fuel with
  | zero => intro n e _; simp [digitsFuel]
  | succ f ih =>
    intro n e hn
    by_cases h0 : n = 0
    · subst h0; simp [digitsFuel]
    · have he : e ≠ 0 := by
        rintro rfl
        simp only [pow_zero, Nat.lt_one_iff] at hn
        exact h0 hn
      obtain ⟨e', rfl⟩ := Nat.exists_eq_succ_of_ne_zero he
      have hdiv : n / 10 < 10 ^ e' := by
        rw [Nat.div_lt_iff_lt_mul (by norm_num : (0:ℕ) < 10)]
        calc n < 10 ^ (e' + 1) := hn
        _ = 10 ^ e' * 10 := by ring
      simp only [digitsFuel, h0, if_false, List.length_cons]
      exact Nat.succ_le_succ (ih (n / 10) e' hdiv)

theorem digitsFuel_ne_nil (fuel n : ℕ) (hf : 0 < fuel) (hn : n ≠ 0) :
    digitsFuel fuel n ≠ [] := by
  obtain ⟨f, rfl⟩ := Nat.exists_eq_succ_of_ne_zero (Nat.pos_iff_ne_zero.mp hf)
  simp [digitsFuel, hn]

/-- Big-endian decimal rendering of a natural number, as Python prints it. -/
def natToChars (n : ℕ) : List Char :=
  if n = 0 then ['0'] else ((natDigits n).map digitChar).reverse

theorem charDigit_digitChar {d : ℕ} (hd : d < 10) : charDigit (digitChar d) = some d := by
  interval_cases d <;> rfl

theorem isDigitCh_digitChar {d : ℕ} (hd : d < 10) : IsDigitCh (digitChar d) := by
  interval_cases d <;> decide

theorem natToChars_digits (n : ℕ) : ∀ c ∈ natToChars n, IsDigitCh c := by
  intro c hc
  unfold natToChars at hc
  split at hc
  · simp only [List.mem_singleton] at hc; subst hc; decide
  · simp only [List.mem_reverse, List.mem_map] at hc
    obtain ⟨d, hd, rfl⟩ := hc
    exact isDigitCh_digitChar (digitsFuel_lt n n d hd)

theorem natToChars_ne_nil (n : ℕ) : natToChars n ≠ [] := by
  unfold natToChars
  split
  · simp
  · next h =>
    simp only [ne_eq, List.reverse_eq_nil_iff, List.map_eq_nil_iff]
    exact digitsFuel_ne_nil n n (Nat.pos_of_ne_zero h) h

theorem natToChars_length_le (n e : ℕ) (he : 0 < e) (hn : n < 10 ^ e) :
    (natToChars n).length ≤ e := by
  unfold natToChars
  split
  · simpa using he
  · simpa using digitsFuel_length_le n n e hn

/-- Accumulating parse of a run of decimal digit characters,
`none` as soon as a non-digit is met. -/
def parseDigitsAux : ℕ → List Char → Option ℕ
  | acc, [] => some acc
  | acc, c :: cs =>
    match charDigit c with
    | some d => parseDigitsAux (10 * acc + d) cs
    | none => none

/-- Parse a non-empty run of decimal digit characters. -/
def parseDigits (l : List Char) : Option ℕ :=
  if l = [] then none else parseDigitsAux 0 l

theorem parseDigitsAux_append (acc : ℕ) (xs ys : List Char) :
    parseDigitsAux acc (xs ++ ys) =
      match parseDigitsAux acc xs with
      | some a => parseDigitsAux a ys
      | none => none := by
  induction xs generalizing acc with
  | nil => simp [parseDigitsAux]
  | cons c cs ih =>
    simp only [List.cons_append, parseDigitsAux]
    cases charDigit c with
    | some d => exact ih (10 * acc + d)
    | none => rfl

theorem parseDigitsAux_map (L : List ℕ) (hL : ∀ d ∈ L, d < 10) (acc : ℕ) :
    parseDigitsAux acc (L.map digitChar) =
      some (L.foldl (fun a d => 10 * a + d) acc) := by
  induction L generalizing acc with
  | nil => rfl
  | cons d ds ih =>
    have hd : d < 10 := hL d (List.mem_cons_self d ds)
    simp only [List.map_cons, parseDigitsAux, charDigit_digitChar hd, List.foldl_cons]
    exact ih (fun x hx => hL x (List.mem_cons_of_mem d hx)) (10 * acc + d)

theorem foldl_reverse_valLE (L : List ℕ) (acc : ℕ) :
    (L.reverse).foldl (fun a d => 10 * a + d) acc = acc * 10 ^ L.length + valLE L := by
  induction L generalizing acc with
  | nil => simp [valLE]
  | cons d ds ih =>
    simp only [List.reverse_cons, List.foldl_append, List.foldl_cons, List.foldl_nil,
      ih acc, valLE, List.length_cons]
    ring

/-- Leading `'0'` characters are ignored by the digit parser (when the
accumulator is `0`). -/
theorem parseDigitsAux_replicate_zero (k : ℕ) (l : List Char) :
    parseDigitsAux 0 (List.replicate k '0' ++ l) = parseDigitsAux 0 l := by
  induction k with
  | zero => rfl
  | succ k ih =>
    simpa [List.replicate_succ, parseDigitsAux, charDigit] using ih

theorem parseDigits_natToChars (n : ℕ) : parseDigits (natToChars n) = some n := by
  unfold parseDigits natToChars natDigits
  by_cases h0 : n = 0
  · subst h0; rfl
  · rw [if_neg h0, if_neg (by
      simpa using digitsFuel_ne_nil n n (Nat.pos_of_ne_zero h0) h0)]
    rw [← List.map_reverse,
      parseDigitsAux_map _ (fun d hd => digitsFuel_lt n n d (List.mem_reverse.mp hd)) 0,
      foldl_reverse_valLE]
    simp [valLE_digitsFuel n n le_rfl]

/-- The digit parser on a zero-padded digit string: the value is unchanged and
only digits appear. -/
theorem parseDigits_padded (e n : ℕ) (he : 0 < e) (hn : n < 10 ^ e) :
    parseDigits (List.replicate (e - (natToChars n).length) '0' ++ natToChars n) =
      some n ∧
    (List.replicate (e - (natToChars n).length) '0' ++ natToChars n).length = e := by
  constructor
  · have hne : List.replicate (e - (natToChars n).length) '0' ++ natToChars n ≠ [] := by
      simp [natToChars_ne_nil n]
    rw [parseDigits, if_neg hne, parseDigitsAux_replicate_zero]
    have := parseDigits_natToChars n
    rwa [parseDigits, if_neg (natToChars_ne_nil n)] at this
  · have hle := natToChars_length_le n e he hn
    simp only [List.length_append, List.length_replicate]
    omega

/-- Split a character list at every occurrence of `sep`, keeping empty pieces:
the model of Python's `str.split(sep)` for a one-character separator. -/
def splitOnChar (sep : Char) : List Char → List (List Char)
  | [] => [[]]
  | x :: xs =>
    match splitOnChar sep xs with
    | [] => [[]]
    | h :: t => if x = sep then [] :: h :: t else (x :: h) :: t

theorem splitOnChar_ne_nil (sep : Char) (l : List Char) : splitOnChar sep l ≠ [] := by
  cases l with
  | nil => simp [splitOnChar]
  | cons x xs =>
    rw [splitOnChar]
    rcases h : splitOnChar sep xs with _ | ⟨a, t⟩
    · simp
    · split
      · simp
      · split <;> simp

theorem splitOnChar_not_mem (sep : Char) (l : List Char) (h : sep ∉ l) :
    splitOnChar sep l = [l] := by
  induction l with
  | nil => rfl
  | cons x xs ih =>
    have hx : x ≠ sep := fun he => h (he ▸ List.mem_cons_self x xs)
    have hxs : sep ∉ xs := fun hm => h (List.mem_cons_of_mem x hm)
    simp only [splitOnChar, ih hxs]
    simp [hx]

theorem splitOnChar_append (sep : Char) (A B : List Char) (hA : sep ∉ A) :
    splitOnChar sep (A ++ sep :: B) = A :: splitOnChar sep B := by
  induction A with
  | nil =>
    rw [List.nil_append, splitOnChar]
    rcases h : splitOnChar sep B with _ | ⟨a, t⟩
    · exact absurd h (splitOnChar_ne_nil sep B)
    · simp
  | cons x xs ih =>
    have hx : x ≠ sep := fun he => hA (he ▸ List.mem_cons_self x xs)
    have hxs : sep ∉ xs := fun hm => hA (List.mem_cons_of_mem x hm)
    rw [List.cons_append, splitOnChar, ih hxs]
    simp [hx]

/-- Drop leading and trailing whitespace: the model of Python's `str.strip()`. -/
def stripChars (l : List Char) : List Char :=
  ((l.dropWhile Char.isWhitespace).reverse.dropWhile Char.isWhitespace).reverse

theorem dropWhile_of_forall_neg {p : Char → Bool} (l : List Char)
    (h : ∀ c ∈ l, p c = false) : l.dropWhile p = l := by
  cases l with
  | nil => rfl
  | cons x xs => simp [List.dropWhile_cons, h x (List.mem_cons_self x xs)]

theorem stripChars_of_clean (l : List Char) (h : ∀ c ∈ l, c.isWhitespace = false) :
    stripChars l = l := by
  unfold stripChars
  rw [dropWhile_of_forall_neg l h,
    dropWhile_of_forall_neg l.reverse (fun c hc => h c (List.mem_reverse.mp hc)),
    List.reverse_reverse]

theorem stripChars_space_cons (l : List Char) (h : ∀ c ∈ l, c.isWhitespace = false) :
    stripChars (' ' :: l) = l := by
  unfold stripChars
  rw [List.dropWhile_cons_of_pos (by decide), dropWhile_of_forall_neg l h,
    dropWhile_of_forall_neg l.reverse (fun c hc => h c (List.mem_reverse.mp hc)),
    List.reverse_reverse]

/-- Smallest exponent `e` with `d ∣ 10 ^ e`, searched up to `d` (enough for any
denominator of the form `2^i * 5^j`); `none` when the fraction `n / d` has no
finite decimal expansion. -/
def decExpSearch (d : ℕ) : Option ℕ :=
  (List.range (d + 1)).find? (fun e => decide (d ∣ 10 ^ e))

/-- Decimal rendering of the non-negative fraction `n / d` (in lowest terms):
integer part, `'.'`, then exactly `e` fractional digits when `d ∣ 10 ^ e`;
a `"n/d"` fallback otherwise (never produced for values the program renders,
since Python floats always have finite decimal form). -/
def fmtCore (n d : ℕ) : List Char :=
  match decExpSearch d with
  | some e =>
    natToChars (n * (10 ^ e / d) / 10 ^ e) ++ '.' ::
      (List.replicate (e - (natToChars (n * (10 ^ e / d) % 10 ^ e)).length) '0' ++
        natToChars (n * (10 ^ e / d) % 10 ^ e))
  | none => natToChars n ++ '/' :: natToChars d

/-- Rendering of a rational, modelling Python's `f"{x}"` for a number `x`. -/
def fmtChars (q : ℚ) : List Char :=
  (if q < 0 then ['-'] else []) ++ fmtCore q.num.natAbs q.den

/-- String form of `fmtChars`. -/
def fmtNum (q : ℚ) : String := ⟨fmtChars q⟩

/-- Parse a sign-free numeric token: `"i.f"` decimals, the `"n/d"` fallback, or
a bare digit run. -/
def parsePos (l : List Char) : Option ℚ :=
  if '/' ∈ l then
    match splitOnChar '/' l with
    | [a, b] =>
      match parseDigits a, parseDigits b with
      | some x, some y => if y = 0 then none else some ((x : ℚ) / (y : ℚ))
      | _, _ => none
    | _ => none
  else if '.' ∈ l then
    match splitOnChar '.' l with
    | [a, b] =>
      match parseDigits a, parseDigits b with
      | some x, some y => some ((x : ℚ) + (y : ℚ) / 10 ^ b.length)
      | _, _ => none
    | _ => none
  else (parseDigits l).map (fun n => (n : ℚ))

/-- Parse an optionally `'-'`-signed numeric token. -/
def parseChars (l : List Char) : Option ℚ :=
  if l.head? = some '-' then (parsePos l.tail).map (fun x => -x) else parsePos l

/-- Model of Python's `float(s)` on the strings this program produces
(`none` stands for the `ValueError` Python raises on malformed input; the
development proves every string the class parses is well formed). -/
def pyFloat (s : String) : Option ℚ := parseChars s.data

theorem isDigitCh_facts {c : Char} (h : IsDigitCh c) :
    c ≠ '.' ∧ c ≠ '/' ∧ c ≠ '-' ∧ c ≠ '=' ∧ c.isWhitespace = false := by
  obtain ⟨h1, h2⟩ := h
  refine ⟨?_, ?_, ?_, ?_, ?_⟩
  · rintro rfl; exact absurd h1 (by decide)
  · rintro rfl; exact absurd h1 (by decide)
  · rintro rfl; exact absurd h1 (by decide)
  · rintro rfl; exact absurd h2 (by decide)
  · simp only [Char.isWhitespace, Bool.or_eq_false_iff, decide_eq_false_iff_not]
    refine ⟨⟨⟨?_, ?_⟩, ?_⟩, ?_⟩ <;> (rintro rfl; exact absurd h1 (by decide))

/-- Every character of `fmtCore n d` is a digit, `'.'`, or `'/'`. -/
theorem fmtCore_good (n d : ℕ) :
    ∀ c ∈ fmtCore n d, IsDigitCh c ∨ c = '.' ∨ c = '/' := by
  intro c hc
  unfold fmtCore at hc
  rcases hsearch : decExpSearch d with _ | e <;> rw [hsearch] at hc
  · rcases List.mem_append.mp hc with h | h
    · exact Or.inl (natToChars_digits n c h)
    · rcases List.mem_cons.mp h with h | h
      · exact Or.inr (Or.inr h)
      · exact Or.inl (natToChars_digits d c h)
  · rcases List.mem_append.mp hc with h | h
    · exact Or.inl (natToChars_digits _ c h)
    · rcases List.mem_cons.mp h with h | h
      · exact Or.inr (Or.inl h)
      · rcases List.mem_append.mp h with h | h
        · have := List.eq_of_mem_replicate h
          subst this
          exact Or.inl (by decide)
        · exact Or.inl (natToChars_digits _ c h)

theorem decExpSearch_dvd {d e : ℕ} (h : decExpSearch d = some e) : d ∣ 10 ^ e := by
  have := List.find?_some h
  simpa using this

theorem fmtCore_eq_dec (n d e : ℕ) (h : decExpSearch d = some e) :
    fmtCore n d =
      natToChars (n * (10 ^ e / d) / 10 ^ e) ++ '.' ::
        (List.replicate (e - (natToChars (n * (10 ^ e / d) % 10 ^ e)).length) '0' ++
          natToChars (n * (10 ^ e / d) % 10 ^ e)) := by
  unfold fmtCore; rw [h]

theorem fmtCore_eq_frac (n d : ℕ) (h : decExpSearch d = none) :
    fmtCore n d = natToChars n ++ '/' :: natToChars d := by
  unfold fmtCore; rw [h]

theorem parsePos_fmtCore (n d : ℕ) (hd : d ≠ 0) :
    parsePos (fmtCore n d) = some ((n : ℚ) / (d : ℚ)) := by
  rcases hsearch : decExpSearch d with _ | e
  · -- no finite decimal expansion: the `"n/d"` fallback round-trips directly
    rw [fmtCore_eq_frac n d hsearch]
    have hA : '/' ∉ natToChars n :=
      fun h => (isDigitCh_facts (natToChars_digits n _ h)).2.1 rfl
    have hB : '/' ∉ natToChars d :=
      fun h => (isDigitCh_facts (natToChars_digits d _ h)).2.1 rfl
    have hmem : '/' ∈ natToChars n ++ '/' :: natToChars d := by simp
    rw [parsePos, if_pos hmem, splitOnChar_append '/' _ _ hA,
      splitOnChar_not_mem '/' _ hB]
    dsimp only
    rw [parseDigits_natToChars n, parseDigits_natToChars d]
    simp [hd]
  · -- finite decimal expansion with e fractional digits
    rw [fmtCore_eq_dec n d e hsearch]
    have he_dvd : d ∣ 10 ^ e := decExpSearch_dvd hsearch
    have hpe : (0:ℕ) < 10 ^ e := Nat.pos_pow_of_pos e (by norm_num)
    have hAdig : ∀ c ∈ natToChars (n * (10 ^ e / d) / 10 ^ e), IsDigitCh c :=
      natToChars_digits _
    have hBdig : ∀ c ∈ List.replicate
        (e - (natToChars (n * (10 ^ e / d) % 10 ^ e)).length) '0' ++
        natToChars (n * (10 ^ e / d) % 10 ^ e), IsDigitCh c := by
      intro c hc
      rcases List.mem_append.mp hc with h | h
      · rw [List.eq_of_mem_replicate h]; decide
      · exact natToChars_digits _ c h
    have hslash : '/' ∉ natToChars (n * (10 ^ e / d) / 10 ^ e) ++ '.' ::
        (List.replicate (e - (natToChars (n * (10 ^ e / d) % 10 ^ e)).length) '0' ++
          natToChars (n * (10 ^ e / d) % 10 ^ e)) := by
      intro h
      rcases List.mem_append.mp h with h | h
      · exact (isDigitCh_facts (hAdig _ h)).2.1 rfl
      · rcases List.mem_cons.mp h with h | h
        · exact absurd h (by decide)
        · exact (isDigitCh_facts (hBdig _ h)).2.1 rfl
    have hdotA : '.' ∉ natToChars (n * (10 ^ e / d) / 10 ^ e) :=
      fun h => (isDigitCh_facts (hAdig _ h)).1 rfl
    have hdotB : '.' ∉ List.replicate
        (e - (natToChars (n * (10 ^ e / d) % 10 ^ e)).length) '0' ++
        natToChars (n * (10 ^ e / d) % 10 ^ e) :=
      fun h => (isDigitCh_facts (hBdig _ h)).1 rfl
    have hdot : '.' ∈ natToChars (n * (10 ^ e / d) / 10 ^ e) ++ '.' ::
        (List.replicate (e - (natToChars (n * (10 ^ e / d) % 10 ^ e)).length) '0' ++
          natToChars (n * (10 ^ e / d) % 10 ^ e)) := by simp
    rw [parsePos, if_neg hslash, if_pos hdot, splitOnChar_append '.' _ _ hdotA,
      splitOnChar_not_mem '.' _ hdotB]
    dsimp only
    rw [parseDigits_natToChars]
    have hdQ : (d : ℚ) ≠ 0 := Nat.cast_ne_zero.mpr hd
    have h10 : ((10:ℚ)) ^ e ≠ 0 := by positivity
    have hcast : ((10 ^ e / d : ℕ) : ℚ) = (10:ℚ) ^ e / (d:ℚ) := by
      rw [Nat.cast_div he_dvd hdQ]; push_cast; ring
    by_cases he : e = 0
    · -- integral value: d ∣ 1, fractional part is the single digit '0'
      subst he
      have hd1 : d = 1 := Nat.dvd_one.mp (by simpa using he_dvd)
      subst hd1
      have h0 : charDigit '0' = some 0 := by decide
      norm_num [parseDigits, natToChars, parseDigitsAux, Nat.mod_one, h0]
    · have hepos : 0 < e := Nat.pos_of_ne_zero he
      have hmod : n * (10 ^ e / d) % 10 ^ e < 10 ^ e := Nat.mod_lt _ hpe
      obtain ⟨hpB, hlenB⟩ := parseDigits_padded e (n * (10 ^ e / d) % 10  ^ e) hepos hmod
      rw [hpB, hlenB]
      have hdm0 : 10 ^ e * (n * (10 ^ e / d) / 10 ^ e) + n * (10 ^ e / d) % 10 ^ e
          = n * (10 ^ e / d) := Nat.div_add_mod _ _
      have hdm : ((10:ℚ)) ^ e * ((n * (10 ^ e / d) / 10 ^ e : ℕ) : ℚ) +
          ((n * (10 ^ e / d) % 10 ^ e : ℕ) : ℚ) = ((n * (10 ^ e / d) : ℕ) : ℚ) := by
        exact_mod_cast hdm0
      have hmQ : ((n * (10 ^ e / d) : ℕ) : ℚ) = (n : ℚ) * ((10:ℚ) ^ e / (d : ℚ)) := by
        push_cast [hcast]; ring
      rw [hmQ] at hdm
      rw [Option.some.injEq]
      field_simp
      field_simp at hdm
      linear_combination hdm

theorem fmtCore_head_ne_minus (n d : ℕ) : (fmtCore n d).head? ≠ some '-' := by
  cases h : fmtCore n d with
  | nil => simp
  | cons c t =>
    have hc : c ∈ fmtCore n d := h ▸ List.mem_cons_self c t
    simp only [List.head?_cons, ne_eq, Option.some.injEq]
    rcases fmtCore_good n d c hc with hg | hg | hg
    · exact (isDigitCh_facts hg).2.2.1
    · subst hg; decide
    · subst hg; decide

/-- The formatter/parser round trip: parsing a rendered rational recovers it
exactly.  This is the fact that makes `_log_operation`'s
`float(operation.split("=")[-1].strip())` reconstruction exact. -/
theorem parseChars_fmtChars (q : ℚ) : parseChars (fmtChars q) = some q := by
  have hd : q.den ≠ 0 := q.den_nz
  by_cases hq : q < 0
  · rw [fmtChars, if_pos hq, List.singleton_append]
    have hstep : parseChars ('-' :: fmtCore q.num.natAbs q.den)
        = (parsePos (fmtCore q.num.natAbs q.den)).map (fun x => -x) := by
      rw [parseChars]; simp
    rw [hstep, parsePos_fmtCore _ _ hd]
    simp only [Option.map_some']
    congr 1
    have hle : q.num ≤ 0 := le_of_lt (Rat.num_neg.mpr hq)
    have hnum : (q.num.natAbs : ℚ) = -(q.num : ℚ) := by
      rw [Int.cast_natAbs, abs_of_nonpos hle]
      push_cast
      ring
    rw [hnum, neg_div, neg_neg, Rat.num_div_den]
  · rw [fmtChars, if_neg hq, List.nil_append, parseChars,
      if_neg (fmtCore_head_ne_minus _ _), parsePos_fmtCore _ _ hd]
    congr 1
    have hge : 0 ≤ q.num := Rat.num_nonneg.mpr (not_lt.mp hq)
    have hnum : (q.num.natAbs : ℚ) = (q.num : ℚ) := by
      rw [Int.cast_natAbs, abs_of_nonneg hge]
    rw [hnum, Rat.num_div_den]

theorem pyFloat_fmtNum (q : ℚ) : pyFloat (fmtNum q) = some q :=
  parseChars_fmtChars q

theorem fmtChars_good (q : ℚ) :
    ∀ c ∈ fmtChars q, IsDigitCh c ∨ c = '.' ∨ c = '/' ∨ c = '-' := by
  intro c hc
  unfold fmtChars at hc
  rcases List.mem_append.mp hc with h | h
  · split at h
    · simp only [List.mem_singleton] at h
      exact Or.inr (Or.inr (Or.inr h))
    · simp at h
  · rcases fmtCore_good _ _ c h with hg | hg | hg
    · exact Or.inl hg
    · exact Or.inr (Or.inl hg)
    · exact Or.inr (Or.inr (Or.inl hg))

theorem fmtChars_no_eqch (q : ℚ) : '=' ∉ fmtChars q := by
  intro h
  rcases fmtChars_good q _ h with hg | hg | hg | hg
  · exact (isDigitCh_facts hg).2.2.2.1 rfl
  all_goals exact absurd hg (by decide)

theorem fmtChars_no_ws (q : ℚ) : ∀ c ∈ fmtChars q, c.isWhitespace = false := by
  intro c hc
  rcases fmtChars_good q _ hc with hg | hg | hg | hg
  · exact (isDigitCh_facts hg).2.2.2.2
  all_goals subst hg; decide

/-- Round-half-to-even on an exact rational, the model of Python's built-in
`round` tie-breaking rule.  (Python applies banker's rounding to the binary
float value; no input appearing in the claims is a tie, so the tie rule does
not affect any verified statement.) -/
def roundHalfEven (q : ℚ) : ℤ :=
  if q - ⌊q⌋ < 1/2 then ⌊q⌋
  else if 1/2 < q - ⌊q⌋ then ⌊q⌋ + 1
  else if ⌊q⌋ % 2 = 0 then ⌊q⌋ else ⌊q⌋ + 1

/-- Model of Python's `round(x, p)`: round `x` to `p` decimal digits. -/
def pyRound (x : ℚ) (p : ℤ) : ℚ := (roundHalfEven (x * 10 ^ p) : ℚ) / 10 ^ p

namespace calculator

/-- `add` from `src/calculator/calculator.py`: plain sum. -/
def add (a b : ℚ) : ℚ := a + b

/-- `divide` from `src/calculator/calculator.py`: raises
`ValueError("Cannot divide by zero")` when `b == 0`, else returns `a / b`. -/
def divide (a b : ℚ) : Except String ℚ :=
  if b = 0 then .error "Cannot divide by zero" else .ok (a / b)

/-- `multiply` from `src/calculator/calculator.py`: plain product. -/
def multiply (a b : ℚ) : ℚ := a * b

/-- `calculate_average` from `src/calculator/calculator.py`: raises
`ValueError("Cannot calculate average of empty list")` on `[]`, else returns
`sum(numbers) / len(numbers)`. -/
def calculate_average (numbers : List ℚ) : Except String ℚ :=
  if numbers = [] then .error "Cannot calculate average of empty list"
  else .ok (numbers.sum / (numbers.length : ℚ))

end calculator

/-- State of a `Calculator` instance from
`src/calculator/calculator_class.py` (the `logger` attribute is omitted:
debug logging has no effect on any modelled observable). -/
structure Calculator where
  precision : ℤ
  history : List String
  last_result : Option ℚ
  deriving DecidableEq

/-- `Calculator.__init__`: fresh instance with the given precision
(the Python default argument is `2`), empty history, no last result. -/
def Calculator.init (precision : ℤ) : Calculator :=
  { precision := precision, history := [], last_result := none }

/-- Model of Python's `s.split("=")`. -/
def pySplitEq (s : String) : List String :=
  (splitOnChar '=' s.data).map (fun l => ⟨l⟩)

/-- Model of Python's `s.strip()`. -/
def pyStrip (s : String) : String := ⟨stripChars s.data⟩

/-- `Calculator._log_operation`: append `operation` to the history and, unless
`error` is set, recover `last_result` by parsing the text after the last `'='`
(Python: `float(operation.split("=")[-1].strip())`). -/
def Calculator.log_operation (c : Calculator) (operation : String) (error : Bool) :
    Calculator :=
  { c with
    history := c.history ++ [operation]
    last_result :=
      if error then c.last_result
      else pyFloat (pyStrip ((pySplitEq operation).getLastD "")) }

/-- Model of Python's rendering `f"{numbers}"` of a list: comma-space
separated entries between square brackets. -/
def joinSep : List (List Char) → List Char
  | [] => []
  | [a] => a
  | a :: b :: rest => a ++ ',' :: ' ' :: joinSep (b :: rest)

/-- String form of the rendered list. -/
def fmtList (xs : List ℚ) : String := ⟨'[' :: (joinSep (xs.map fmtChars) ++ [']'])⟩

/-- `Calculator.add`: round `a + b` to the instance precision, log it,
return it. -/
def Calculator.add (c : Calculator) (a b : ℚ) : ℚ × Calculator :=
  (pyRound (a + b) c.precision,
    c.log_operation
      (fmtNum a ++ " + " ++ fmtNum b ++ " = " ++ fmtNum (pyRound (a + b) c.precision))
      false)

/-- `Calculator.divide`: on `b == 0` log an `ERROR` entry and raise
`ValueError("Cannot divide by zero")`; else round `a / b` to the instance
precision, log it, return it. -/
def Calculator.divide (c : Calculator) (a b : ℚ) : Except String ℚ × Calculator :=
  if b = 0 then
    (.error "Cannot divide by zero",
      c.log_operation (fmtNum a ++ " / " ++ fmtNum b ++ " = ERROR") true)
  else
    (.ok (pyRound (a / b) c.precision),
      c.log_operation
        (fmtNum a ++ " / " ++ fmtNum b ++ " = " ++ fmtNum (pyRound (a / b) c.precision))
        false)

/-- `Calculator.multiply`: round `a * b` to the instance precision, log it,
return it. -/
def Calculator.multiply (c : Calculator) (a b : ℚ) : ℚ × Calculator :=
  (pyRound (a * b) c.precision,
    c.log_operation
      (fmtNum a ++ " * " ++ fmtNum b ++ " = " ++ fmtNum (pyRound (a * b) c.precision))
      false)

/-- `Calculator.calculate_average`: raise on the empty list (before any
logging), else round the mean to the instance precision, log it, return
it. -/
def Calculator.calculate_average (c : Calculator) (numbers : List ℚ) :
    Except String ℚ × Calculator :=
  if numbers = [] then (.error "Cannot calculate average of empty list", c)
  else
    (.ok (pyRound (numbers.sum / (numbers.length : ℚ)) c.precision),
      c.log_operation
        ("avg(" ++ fmtList numbers ++ ") = " ++
          fmtNum (pyRound (numbers.sum / (numbers.length : ℚ)) c.precision))
        false)

/-- `Calculator.get_history`: the full history list. -/
def Calculator.get_history (c : Calculator) : List String := c.history

/-- `Calculator.clear_history`: empty the history and reset `last_result`. -/
def Calculator.clear_history (c : Calculator) : Calculator :=
  { c with history := [], last_result := none }

/-- `Calculator.chain_operation`: raise if there is no previous result; raise
on an operation name other than `"add"`, `"mul"`, `"div"`; otherwise delegate
to the named method with `(last_result, value)`. -/
def Calculator.chain_operation (c : Calculator) (op : String) (value : ℚ) :
    Except String ℚ × Calculator :=
  match c.last_result with
  | none => (.error "No previous result to chain", c)
  | some lr =>
    if op = "add" then
      (.ok (c.add lr value).1, (c.add lr value).2)
    else if op = "mul" then
      (.ok (c.multiply lr value).1, (c.multiply lr value).2)
    else if op = "div" then
      c.divide lr value
    else (.error ("Unknown operation: " ++ op), c)

theorem log_operation_error (c : Calculator) (s : String) :
    c.log_operation s true = { c with history := c.history ++ [s] } := by
  unfold Calculator.log_operation
  simp

/-- On a success entry of the shape `"<text> = <rendered r>"` with no `'='` in
`<text>`, `_log_operation` appends the entry and sets `last_result` to exactly
`r`: the split/strip/parse pipeline recovers the rounded value. -/
theorem log_operation_success (c : Calculator) (s : String) (t : List Char) (r : ℚ)
    (hs : s.data = t ++ ' ' :: '=' :: ' ' :: fmtChars r) (ht : '=' ∉ t) :
    c.log_operation s false =
      { c with history := c.history ++ [s], last_result := some r } := by
  have hsplit : splitOnChar '=' s.data = [t ++ [' '], ' ' :: fmtChars r] := by
    rw [hs, show t ++ ' ' :: '=' :: ' ' :: fmtChars r
      = (t ++ [' ']) ++ '=' :: (' ' :: fmtChars r) by simp]
    rw [splitOnChar_append '=' _ _ (by
      intro hmem
      rcases List.mem_append.mp hmem with h | h
      · exact ht h
      · exact absurd (List.mem_singleton.mp h) (by decide))]
    rw [splitOnChar_not_mem '=' _ (by
      intro hmem
      rcases List.mem_cons.mp hmem with h | h
      · exact absurd h (by decide)
      · exact fmtChars_no_eqch r h)]
  unfold Calculator.log_operation
  simp only [Bool.false_eq_true, if_false]
  congr 1
  rw [pySplitEq, hsplit]
  simp only [List.map_cons, List.map_nil, List.getLastD_cons, List.getLastD_nil]
  rw [pyStrip]
  show parseChars (stripChars (' ' :: fmtChars r)) = some r
  rw [stripChars_space_cons _ (fmtChars_no_ws r)]
  exact parseChars_fmtChars r

theorem Calculator.add_spec (c : Calculator) (a b : ℚ) :
    c.add a b = (pyRound (a + b) c.precision,
      { c with
        history := c.history ++
          [fmtNum a ++ " + " ++ fmtNum b ++ " = " ++ fmtNum (pyRound (a + b) c.precision)],
        last_result := some (pyRound (a + b) c.precision) }) := by
  unfold Calculator.add
  congr 1
  apply log_operation_success c _ (fmtChars a ++ ' ' :: '+' :: ' ' :: fmtChars b)
  · simp [fmtNum, String.data_append, List.append_assoc]
  · intro hmem
    rcases List.mem_append.mp hmem with h | h
    · exact fmtChars_no_eqch a h
    · rcases List.mem_cons.mp h with h | h
      · exact absurd h (by decide)
      · rcases List.mem_cons.mp h with h | h
        · exact absurd h (by decide)
        · rcases List.mem_cons.mp h with h | h
          · exact absurd h (by decide)
          · exact fmtChars_no_eqch b h

theorem Calculator.multiply_spec (c : Calculator) (a b : ℚ) :
    c.multiply a b = (pyRound (a * b) c.precision,
      { c with
        history := c.history ++
          [fmtNum a ++ " * " ++ fmtNum b ++ " = " ++ fmtNum (pyRound (a * b) c.precision)],
        last_result := some (pyRound (a * b) c.precision) }) := by
  unfold Calculator.multiply
  congr 1
  apply log_operation_success c _ (fmtChars a ++ ' ' :: '*' :: ' ' :: fmtChars b)
  · simp [fmtNum, String.data_append, List.append_assoc]
  · intro hmem
    rcases List.mem_append.mp hmem with h | h
    · exact fmtChars_no_eqch a h
    · rcases List.mem_cons.mp h with h | h
      · exact absurd h (by decide)
      · rcases List.mem_cons.mp h with h | h
        · exact absurd h (by decide)
        · rcases List.mem_cons.mp h with h | h
          · exact absurd h (by decide)
          · exact fmtChars_no_eqch b h

theorem Calculator.divide_ok_spec (c : Calculator) (a b : ℚ) (hb : b ≠ 0) :
    c.divide a b = (.ok (pyRound (a / b) c.precision),
      { c with
        history := c.history ++
          [fmtNum a ++ " / " ++ fmtNum b ++ " = " ++ fmtNum (pyRound (a / b) c.precision)],
        last_result := some (pyRound (a / b) c.precision) }) := by
  unfold Calculator.divide
  rw [if_neg hb]
  congr 1
  apply log_operation_success c _ (fmtChars a ++ ' ' :: '/' :: ' ' :: fmtChars b)
  · simp [fmtNum, String.data_append, List.append_assoc]
  · intro hmem
    rcases List.mem_append.mp hmem with h | h
    · exact fmtChars_no_eqch a h
    · rcases List.mem_cons.mp h with h | h
      · exact absurd h (by decide)
      · rcases List.mem_cons.mp h with h | h
        · exact absurd h (by decide)
        · rcases List.mem_cons.mp h with h | h
          · exact absurd h (by decide)
          · exact fmtChars_no_eqch b h

theorem Calculator.divide_err_spec (c : Calculator) (a : ℚ) :
    c.divide a 0 = (.error "Cannot divide by zero",
      { c with
        history := c.history ++ [fmtNum a ++ " / " ++ fmtNum 0 ++ " = ERROR"] }) := by
  unfold Calculator.divide
  rw [if_pos rfl, log_operation_error]

theorem joinSep_no_eqch (xs : List ℚ) : '=' ∉ joinSep (xs.map fmtChars) := by
  induction xs with
  | nil => simp [joinSep]
  | cons x rest ih =>
    cases rest with
    | nil => simpa [joinSep] using fmtChars_no_eqch x
    | cons y t =>
      intro h
      rw [List.map_cons, List.map_cons, joinSep] at h
      rcases List.mem_append.mp h with h | h
      · exact fmtChars_no_eqch x h
      · rcases List.mem_cons.mp h with h | h
        · exact absurd h (by decide)
        · rcases List.mem_cons.mp h with h | h
          · exact absurd h (by decide)
          · exact ih (by rw [List.map_cons]; exact h)

theorem Calculator.calculate_average_ok_spec (c : Calculator) (xs : List ℚ)
    (hxs : xs ≠ []) :
    c.calculate_average xs =
      (.ok (pyRound (xs.sum / (xs.length : ℚ)) c.precision),
      { c with
        history := c.history ++
          ["avg(" ++ fmtList xs ++ ") = " ++
            fmtNum (pyRound (xs.sum / (xs.length : ℚ)) c.precision)],
        last_result := some (pyRound (xs.sum / (xs.length : ℚ)) c.precision) }) := by
  unfold Calculator.calculate_average
  rw [if_neg hxs]
  congr 1
  apply log_operation_success c _
    (['a', 'v', 'g', '('] ++ ('[' :: (joinSep (xs.map fmtChars) ++ [']'])) ++ [')'])
  · simp [fmtList, fmtNum, String.data_append, List.append_assoc]
  · intro hmem
    rcases List.mem_append.mp hmem with h | h
    · rcases List.mem_append.mp h with h | h
      · exact absurd h (by decide)
      · rcases List.mem_cons.mp h with h | h
        · exact absurd h (by decide)
        · rcases List.mem_append.mp h with h | h
          · exact joinSep_no_eqch xs h
          · exact absurd (List.mem_singleton.mp h) (by decide)
    · exact absurd (List.mem_singleton.mp h) (by decide)

theorem Calculator.calculate_average_err_spec (c : Calculator) :
    c.calculate_average [] = (.error "Cannot calculate average of empty list", c) := rfl

theorem Calculator.chain_none_spec (c : Calculator) (op : String) (v : ℚ)
    (h : c.last_result = none) :
    c.chain_operation op v = (.error "No previous result to chain", c) := by
  unfold Calculator.chain_operation
  rw [h]

theorem Calculator.chain_add_spec (c : Calculator) (lr v : ℚ)
    (h : c.last_result = some lr) :
    c.chain_operation "add" v = (.ok (c.add lr v).1, (c.add lr v).2) := by
  unfold Calculator.chain_operation
  rw [h]
  dsimp only
  rw [if_pos rfl]

theorem Calculator.chain_mul_spec (c : Calculator) (lr v : ℚ)
    (h : c.last_result = some lr) :
    c.chain_operation "mul" v = (.ok (c.multiply lr v).1, (c.multiply lr v).2) := by
  unfold Calculator.chain_operation
  rw [h]
  dsimp only
  rw [if_neg (by decide), if_pos rfl]

theorem Calculator.chain_div_spec (c : Calculator) (lr v : ℚ)
    (h : c.last_result = some lr) :
    c.chain_operation "div" v = c.divide lr v := by
  unfold Calculator.chain_operation
  rw [h]
  dsimp only
  rw [if_neg (by decide), if_neg (by decide), if_pos rfl]

theorem Calculator.chain_unknown_spec (c : Calculator) (op : String) (v lr : ℚ)
    (h : c.last_result = some lr)
    (h1 : op ≠ "add") (h2 : op ≠ "mul") (h3 : op ≠ "div") :
    c.chain_operation op v = (.error ("Unknown operation: " ++ op), c) := by
  unfold Calculator.chain_operation
  rw [h]
  dsimp only
  rw [if_neg h1, if_neg h2, if_neg h3]

/-- One public `Calculator` call, for quantifying over call sequences. -/
inductive Op where
  | add (a b : ℚ)
  | multiply (a b : ℚ)
  | divide (a b : ℚ)
  | average (numbers : List ℚ)
  | chain (op : String) (value : ℚ)
  deriving DecidableEq

/-- Execute one call (`add`/`multiply` never raise and are wrapped in
`.ok`). -/
def runOp (c : Calculator) : Op → Except String ℚ × Calculator
  | .add a b => (.ok (c.add a b).1, (c.add a b).2)
  | .multiply a b => (.ok (c.multiply a b).1, (c.multiply a b).2)
  | .divide a b => c.divide a b
  | .average xs => c.calculate_average xs
  | .chain op v => c.chain_operation op v

/-- Execute a sequence of calls, keeping the final state. -/
def runOps (c : Calculator) : List Op → Calculator
  | [] => c
  | op :: ops => runOps (runOp c op).2 ops

/-- Number of history entries one call appends when issued in state `c`: one
per add/multiply/divide call (failed divisions included), one per successful
average, one per chain call that passes both validations, zero otherwise. -/
def logsOf (c : Calculator) : Op → ℕ
  | .add _ _ => 1
  | .multiply _ _ => 1
  | .divide _ _ => 1
  | .average xs => if xs = [] then 0 else 1
  | .chain op _ =>
    match c.last_result with
    | none => 0
    | some _ => if op = "add" ∨ op = "mul" ∨ op = "div" then 1 else 0

/-- Total number of history entries appended along a call sequence. -/
def countLogs (c : Calculator) : List Op → ℕ
  | [] => 0
  | op :: ops => logsOf c op + countLogs (runOp c op).2 ops

theorem runOp_history_length (c : Calculator) (op : Op) :
    ((runOp c op).2).history.length = c.history.length + logsOf c op := by
  cases op with
  | add a b => rw [runOp, Calculator.add_spec]; simp [logsOf]
  | multiply a b => rw [runOp, Calculator.multiply_spec]; simp [logsOf]
  | divide a b =>
    by_cases hb : b = 0
    · subst hb; rw [runOp, Calculator.divide_err_spec]; simp [logsOf]
    · rw [runOp, Calculator.divide_ok_spec c a b hb]; simp [logsOf]
  | average xs =>
    by_cases hxs : xs = []
    · subst hxs; rw [runOp, Calculator.calculate_average_err_spec]; simp [logsOf]
    · rw [runOp, Calculator.calculate_average_ok_spec c xs hxs]; simp [logsOf, hxs]
  | chain op v =>
    rcases hlr : c.last_result with _ | lr
    · rw [runOp, Calculator.chain_none_spec c op v hlr]; simp [logsOf, hlr]
    · by_cases h1 : op = "add"
      · subst h1
        rw [runOp, Calculator.chain_add_spec c lr v hlr, Calculator.add_spec]
        simp [logsOf, hlr]
      · by_cases h2 : op = "mul"
        · subst h2
          rw [runOp, Calculator.chain_mul_spec c lr v hlr, Calculator.multiply_spec]
          simp [logsOf, hlr]
        · by_cases h3 : op = "div"
          · subst h3
            rw [runOp, Calculator.chain_div_spec c lr v hlr]
            by_cases hv : v = 0
            · subst hv
              rw [Calculator.divide_err_spec]
              simp [logsOf, hlr]
            · rw [Calculator.divide_ok_spec c lr v hv]
              simp [logsOf, hlr]
          · rw [runOp, Calculator.chain_unknown_spec c op v lr hlr h1 h2 h3]
            simp [logsOf, hlr, h1, h2, h3]

theorem runOps_history_length (c : Calculator) (ops : List Op) :
    (runOps c ops).history.length = c.history.length + countLogs c ops := by
  induction ops generalizing c with
  | nil => simp [runOps, countLogs]
  | cons op ops ih =>
    rw [runOps, countLogs, ih, runOp_history_length]
    omega

theorem add_last (c : Calculator) (a b : ℚ) :
    (c.add a b).2.last_result = some (c.add a b).1 := by
  rw [Calculator.add_spec]

theorem multiply_last (c : Calculator) (a b : ℚ) :
    (c.multiply a b).2.last_result = some (c.multiply a b).1 := by
  rw [Calculator.multiply_spec]

theorem divide_last (c : Calculator) (a b r : ℚ) (c' : Calculator)
    (h : c.divide a b = (.ok r, c')) : c'.last_result = some r := by
  by_cases hb : b = 0
  · subst hb
    rw [Calculator.divide_err_spec] at h
    have := congrArg Prod.fst h
    simp at this
  · rw [Calculator.divide_ok_spec c a b hb] at h
    rw [Prod.mk.injEq] at h
    obtain ⟨h1, h2⟩ := h
    simp only [Except.ok.injEq] at h1
    rw [← h2, ← h1]

theorem average_last (c : Calculator) (xs : List ℚ) (r : ℚ) (c' : Calculator)
    (h : c.calculate_average xs = (.ok r, c')) : c'.last_result = some r := by
  by_cases hxs : xs = []
  · subst hxs
    rw [Calculator.calculate_average_err_spec] at h
    have := congrArg Prod.fst h
    simp at this
  · rw [Calculator.calculate_average_ok_spec c xs hxs] at h
    rw [Prod.mk.injEq] at h
    obtain ⟨h1, h2⟩ := h
    simp only [Except.ok.injEq] at h1
    rw [← h2, ← h1]

theorem chain_last (c : Calculator) (op : String) (v r : ℚ) (c' : Calculator)
    (h : c.chain_operation op v = (.ok r, c')) : c'.last_result = some r := by
  rcases hlr : c.last_result with _ | lr
  · rw [Calculator.chain_none_spec c op v hlr] at h
    have := congrArg Prod.fst h
    simp at this
  · by_cases h1 : op = "add"
    · subst h1
      rw [Calculator.chain_add_spec c lr v hlr] at h
      rw [Prod.mk.injEq] at h
      obtain ⟨hfst, hsnd⟩ := h
      simp only [Except.ok.injEq] at hfst
      rw [← hsnd, ← hfst]
      exact add_last c lr v
    · by_cases h2 : op = "mul"
      · subst h2
        rw [Calculator.chain_mul_spec c lr v hlr] at h
        rw [Prod.mk.injEq] at h
        obtain ⟨hfst, hsnd⟩ := h
        simp only [Except.ok.injEq] at hfst
        rw [← hsnd, ← hfst]
        exact multiply_last c lr v
      · by_cases h3 : op = "div"
        · subst h3
          rw [Calculator.chain_div_spec c lr v hlr] at h
          exact divide_last c lr v r c' h
        · rw [Calculator.chain_unknown_spec c op v lr hlr h1 h2 h3] at h
          have := congrArg Prod.fst h
          simp at this

/-- C1 (counterexample): the claim "after `n` operation calls, successes and
failures combined, history has length exactly `n`" fails at the concrete
one-call sequence `calculate_average([])` on a fresh `Calculator(precision=2)`:
the empty-list check raises before anything is logged, so the history stays
empty (length 0, not 1). -/
theorem C1_counterexample :
    (runOps (Calculator.init 2) [Op.average []]).history.length ≠
      ([Op.average []] : List Op).length := by
  intro h
  rw [runOps, runOp, Calculator.calculate_average_err_spec, runOps] at h
  simp [Calculator.init] at h

/-- C1 (amended): for every fresh `Calculator` and every sequence of public
calls, the history length equals the number of calls that append an entry:
every `add`, `multiply` and `divide` call (failed divisions included), every
successful `calculate_average` call, and every `chain_operation` call that
passes both validations; a failed `calculate_average` and a
`chain_operation` rejected for a missing previous result or an unknown name
append nothing. -/
theorem C1_history_length (p : ℤ) (ops : List Op) :
    (runOps (Calculator.init p) ops).history.length =
      countLogs (Calculator.init p) ops := by
  have h := runOps_history_length (Calculator.init p) ops
  simpa [Calculator.init] using h

/-- C3: `divide(a, 0)` first appends the error entry
`"<a> / 0 = ERROR"` to the history, then propagates the
`"Cannot divide by zero"` failure, and `last_result` is unchanged by the
call. -/
theorem C3_divide_by_zero_logs (c : Calculator) (a : ℚ) :
    (c.divide a 0).2.history
        = c.history ++ [fmtNum a ++ " / " ++ fmtNum 0 ++ " = ERROR"] ∧
    (c.divide a 0).1 = .error "Cannot divide by zero" ∧
    (c.divide a 0).2.last_result = c.last_result := by
  rw [Calculator.divide_err_spec]
  exact ⟨rfl, rfl, rfl⟩

/-- C4: the pure `divide` fails with the division-by-zero error for every
dividend and returns `a / b` for `b ≠ 0`; the pure `calculate_average` fails
with the empty-input error on `[]` and returns `sum / length` on every
non-empty list. -/
theorem C4_pure_contracts (x b : ℚ) (xs : List ℚ) (hb : b ≠ 0) (hxs : xs ≠ []) :
    calculator.divide x 0 = .error "Cannot divide by zero" ∧
    calculator.divide x b = .ok (x / b) ∧
    calculator.calculate_average [] = .error "Cannot calculate average of empty list" ∧
    calculator.calculate_average xs = .ok (xs.sum / (xs.length : ℚ)) := by
  refine ⟨?_, ?_, rfl, ?_⟩
  · rw [calculator.divide, if_pos rfl]
  · rw [calculator.divide, if_neg hb]
  · rw [calculator.calculate_average, if_neg hxs]

/-- C4 (witness): the pure contracts instantiated at `x = 10`, `b = 2`,
`xs = [1, 2, 3]`. -/
theorem C4_pure_contracts_witness :
    calculator.divide 10 0 = .error "Cannot divide by zero" ∧
    calculator.divide 10 2 = .ok (10 / 2) ∧
    calculator.calculate_average [] = .error "Cannot calculate average of empty list" ∧
    calculator.calculate_average [1, 2, 3]
        = .ok (([1, 2, 3] : List ℚ).sum / ((([1, 2, 3] : List ℚ).length : ℕ) : ℚ)) :=
  C4_pure_contracts 10 2 [1, 2, 3] (by norm_num) (by simp)

/-- C8: in every state, `clear_history()` leaves the history empty and
`last_result` absent, and a subsequent `chain_operation` call with any
arguments fails with the no-previous-result error (leaving the cleared state
unchanged). -/
theorem C8_clear_history (c : Calculator) (op : String) (v : ℚ) :
    c.clear_history.history = [] ∧
    c.clear_history.last_result = none ∧
    c.clear_history.chain_operation op v
        = (.error "No previous result to chain", c.clear_history) :=
  ⟨rfl, rfl, Calculator.chain_none_spec _ op v rfl⟩

/-- C2 (counterexample): the claim admits `"multiply"` as a supported chain
name, but on a `Calculator` with a previous result the call
`chain_operation("multiply", 2)` fails with the unknown-operation error: the
dispatch table only contains `"add"`, `"mul"`, `"div"`. -/
theorem C2_counterexample :
    (({ precision := 2, history := [], last_result := some 15 } : Calculator).chain_operation
        "multiply" 2).1 = .error "Unknown operation: multiply" := by
  rw [Calculator.chain_unknown_spec _ "multiply" 2 15 rfl (by decide) (by decide) (by decide)]
  rfl

/-- C2 (amended): on a `Calculator` whose `last_result` is present,
`chain_operation(op, v)` fails with the unknown-operation error exactly when
`op` is none of the three accepted names `"add"`, `"mul"`, `"div"`
(`"multiply"` and `"divide"` are not accepted), and each accepted name
invokes the corresponding method with `(last_result, value)`. -/
theorem C2_chain_dispatch (c : Calculator) (lr v : ℚ) (op : String)
    (h : c.last_result = some lr) :
    ((c.chain_operation op v).1 = .error ("Unknown operation: " ++ op) ↔
      op ≠ "add" ∧ op ≠ "mul" ∧ op ≠ "div") ∧
    c.chain_operation "add" v = (.ok (c.add lr v).1, (c.add lr v).2) ∧
    c.chain_operation "mul" v = (.ok (c.multiply lr v).1, (c.multiply lr v).2) ∧
    c.chain_operation "div" v = c.divide lr v := by
  refine ⟨⟨?_, ?_⟩, Calculator.chain_add_spec c lr v h,
    Calculator.chain_mul_spec c lr v h, Calculator.chain_div_spec c lr v h⟩
  · intro herr
    by_cases h1 : op = "add"
    · subst h1
      rw [Calculator.chain_add_spec c lr v h] at herr
      simp at herr
    · by_cases h2 : op = "mul"
      · subst h2
        rw [Calculator.chain_mul_spec c lr v h] at herr
        simp at herr
      · by_cases h3 : op = "div"
        · subst h3
          rw [Calculator.chain_div_spec c lr v h] at herr
          by_cases hv : v = 0
          · subst hv
            rw [Calculator.divide_err_spec] at herr
            simp only [Except.error.injEq] at herr
            exact absurd herr (by decide)
          · rw [Calculator.divide_ok_spec c lr v hv] at herr
            simp at herr
        · exact ⟨h1, h2, h3⟩
  · rintro ⟨h1, h2, h3⟩
    rw [Calculator.chain_unknown_spec c op v lr h h1 h2 h3]

/-- C2 (witness): the amended dispatch statement instantiated on a
`Calculator` with `last_result = 15`, `op = "foo"`, `v = 2`. -/
theorem C2_chain_dispatch_witness :
    ((({ precision := 2, history := [], last_result := some 15 } : Calculator).chain_operation
          "foo" 2).1 = .error ("Unknown operation: " ++ "foo") ↔
      ("foo" : String) ≠ "add" ∧ ("foo" : String) ≠ "mul" ∧ ("foo" : String) ≠ "div") ∧
    ({ precision := 2, history := [], last_result := some 15 } : Calculator).chain_operation
        "add" 2 =
      (.ok (({ precision := 2, history := [], last_result := some 15 } : Calculator).add 15 2).1,
        (({ precision := 2, history := [], last_result := some 15 } : Calculator).add 15 2).2) ∧
    ({ precision := 2, history := [], last_result := some 15 } : Calculator).chain_operation
        "mul" 2 =
      (.ok (({ precision := 2, history := [], last_result := some 15 } : Calculator).multiply 15 2).1,
        (({ precision := 2, history := [], last_result := some 15 } : Calculator).multiply 15 2).2) ∧
    ({ precision := 2, history := [], last_result := some 15 } : Calculator).chain_operation
        "div" 2 =
      ({ precision := 2, history := [], last_result := some 15 } : Calculator).divide 15 2 :=
  C2_chain_dispatch { precision := 2, history := [], last_result := some 15 } 15 2 "foo" rfl

/-- C5: on a fresh `Calculator(precision=2)` the call sequence
`add(10, 5)`, `chain_operation("mul", 2)`, `chain_operation("div", 3)`
returns 15, 30 and 10, and afterwards `last_result = 10` and the history has
exactly 3 entries. -/
theorem C5_chaining_scenario :
    ((Calculator.init 2).add 10 5).1 = 15 ∧
    (((Calculator.init 2).add 10 5).2.chain_operation "mul" 2).1 = .ok 30 ∧
    ((((Calculator.init 2).add 10 5).2.chain_operation "mul" 2).2.chain_operation
        "div" 3).1 = .ok 10 ∧
    ((((Calculator.init 2).add 10 5).2.chain_operation "mul" 2).2.chain_operation
        "div" 3).2.last_result = some 10 ∧
    ((((Calculator.init 2).add 10 5).2.chain_operation "mul" 2).2.chain_operation
        "div" 3).2.history.length = 3 := by
  have hp1 : pyRound (10 + 5) (Calculator.init 2).precision = 15 := by
    norm_num [Calculator.init, pyRound, roundHalfEven]
  have e1 := Calculator.add_spec (Calculator.init 2) 10 5
  rw [hp1] at e1
  have hlr1 : ((Calculator.init 2).add 10 5).2.last_result = some 15 := by rw [e1]
  have hpre1 : ((Calculator.init 2).add 10 5).2.precision = 2 := by rw [e1]; rfl
  have hlen1 : ((Calculator.init 2).add 10 5).2.history.length = 1 := by
    rw [e1]
    simp [Calculator.init]
  have hp2 : pyRound (15 * 2) ((Calculator.init 2).add 10 5).2.precision = 30 := by
    rw [hpre1]
    norm_num [pyRound, roundHalfEven]
  have e2m := Calculator.multiply_spec ((Calculator.init 2).add 10 5).2 15 2
  rw [hp2] at e2m
  have e2 := Calculator.chain_mul_spec _ 15 2 hlr1
  rw [e2m] at e2
  have hlr2 : (((Calculator.init 2).add 10 5).2.chain_operation "mul" 2).2.last_result
      = some 30 := by rw [e2]
  have hpre2 : (((Calculator.init 2).add 10 5).2.chain_operation "mul" 2).2.precision
      = 2 := by rw [e2]; exact hpre1
  have hlen2 : (((Calculator.init 2).add 10 5).2.chain_operation "mul" 2).2.history.length
      = 2 := by
    rw [e2]
    simp [hlen1]
  have hp3 : pyRound (30 / 3)
      (((Calculator.init 2).add 10 5).2.chain_operation "mul" 2).2.precision = 10 := by
    rw [hpre2]
    norm_num [pyRound, roundHalfEven]
  have e3d := Calculator.divide_ok_spec
    (((Calculator.init 2).add 10 5).2.chain_operation "mul" 2).2 30 3 (by norm_num)
  rw [hp3] at e3d
  have e3 := Calculator.chain_div_spec _ 30 3 hlr2
  rw [e3d] at e3
  refine ⟨by rw [e1], by rw [e2], by rw [e3], by rw [e3], ?_⟩
  rw [e3]
  simp [hlen2]

/-- C6: each `Calculator` method wraps the corresponding pure function from
`calculator.py`: it fails exactly when the pure function fails (with the same
error), and on success returns the pure value rounded to the instance
precision. -/
theorem C6_wraps_pure (c : Calculator) (a b : ℚ) (xs : List ℚ) :
    (c.add a b).1 = pyRound (calculator.add a b) c.precision ∧
    (c.multiply a b).1 = pyRound (calculator.multiply a b) c.precision ∧
    (∀ v, calculator.divide a b = .ok v →
      (c.divide a b).1 = .ok (pyRound v c.precision)) ∧
    (∀ e, calculator.divide a b = .error e → (c.divide a b).1 = .error e) ∧
    (∀ v, calculator.calculate_average xs = .ok v →
      (c.calculate_average xs).1 = .ok (pyRound v c.precision)) ∧
    (∀ e, calculator.calculate_average xs = .error e →
      (c.calculate_average xs).1 = .error e) := by
  refine ⟨?_, ?_, ?_, ?_, ?_, ?_⟩
  · rw [Calculator.add_spec, calculator.add]
  · rw [Calculator.multiply_spec, calculator.multiply]
  · intro v hv
    by_cases hb : b = 0
    · subst hb
      rw [calculator.divide, if_pos rfl] at hv
      exact absurd hv (by simp)
    · rw [calculator.divide, if_neg hb] at hv
      simp only [Except.ok.injEq] at hv
      rw [Calculator.divide_ok_spec c a b hb, ← hv]
  · intro e he
    by_cases hb : b = 0
    · subst hb
      rw [calculator.divide, if_pos rfl] at he
      simp only [Except.error.injEq] at he
      rw [Calculator.divide_err_spec, ← he]
    · rw [calculator.divide, if_neg hb] at he
      exact absurd he (by simp)
  · intro v hv
    by_cases hxs : xs = []
    · subst hxs
      rw [calculator.calculate_average, if_pos rfl] at hv
      exact absurd hv (by simp)
    · rw [calculator.calculate_average, if_neg hxs] at hv
      simp only [Except.ok.injEq] at hv
      rw [Calculator.calculate_average_ok_spec c xs hxs, ← hv]
  · intro e he
    by_cases hxs : xs = []
    · subst hxs
      rw [calculator.calculate_average, if_pos rfl] at he
      simp only [Except.error.injEq] at he
      rw [Calculator.calculate_average_err_spec, ← he]
    · rw [calculator.calculate_average, if_neg hxs] at he
      exact absurd he (by simp)

/-- C6 (witness): the wrapping statement exercised on `Calculator(precision=2)`
at a successful division and a failing average. -/
theorem C6_wraps_pure_witness :
    ((Calculator.init 2).divide 10 4).1
        = .ok (pyRound (10 / 4) (Calculator.init 2).precision) ∧
    ((Calculator.init 2).calculate_average []).1
        = .error "Cannot calculate average of empty list" :=
  ⟨(C6_wraps_pure (Calculator.init 2) 10 4 []).2.2.1 (10 / 4)
      (by rw [calculator.divide, if_neg (by norm_num)]),
   (C6_wraps_pure (Calculator.init 2) 10 4 []).2.2.2.2.2
      "Cannot calculate average of empty list" rfl⟩

/-- C7: `Calculator(precision=1).divide(10, 3)` returns 3.3 and
`Calculator(precision=4).divide(10, 3)` returns 3.3333; in general every
successful division returns the raw quotient rounded to the instance's
precision. -/
theorem C7_precision_rounding (c : Calculator) (a b : ℚ) (hb : b ≠ 0) :
    ((Calculator.init 1).divide 10 3).1 = .ok (33/10) ∧
    ((Calculator.init 4).divide 10 3).1 = .ok (33333/10000) ∧
    (c.divide a b).1 = .ok (pyRound (a / b) c.precision) := by
  refine ⟨?_, ?_, ?_⟩
  · rw [Calculator.divide_ok_spec _ 10 3 (by norm_num)]
    have h : pyRound (10 / 3) (Calculator.init 1).precision = 33/10 := by
      norm_num [Calculator.init, pyRound, roundHalfEven]
    rw [h]
  · rw [Calculator.divide_ok_spec _ 10 3 (by norm_num)]
    have h : pyRound (10 / 3) (Calculator.init 4).precision = 33333/10000 := by
      norm_num [Calculator.init, pyRound, roundHalfEven]
    rw [h]
  · rw [Calculator.divide_ok_spec c a b hb]

/-- C7 (witness): the rounding statement instantiated at precision 2 with
`divide(9, 3)`. -/
theorem C7_precision_rounding_witness :
    ((Calculator.init 1).divide 10 3).1 = .ok (33/10) ∧
    ((Calculator.init 4).divide 10 3).1 = .ok (33333/10000) ∧
    ((Calculator.init 2).divide 9 3).1
        = .ok (pyRound (9 / 3) (Calculator.init 2).precision) :=
  C7_precision_rounding (Calculator.init 2) 9 3 (by norm_num)

/-- C9: after every successful call the `last_result` reconstructed by
`_log_operation` (parsing the numeric text after the last `'='` of the logged
entry) equals exactly the value returned to the caller. -/
theorem C9_last_result_returned (c : Calculator) (a b : ℚ) (xs : List ℚ)
    (op : String) (v : ℚ) :
    (c.add a b).2.last_result = some (c.add a b).1 ∧
    (c.multiply a b).2.last_result = some (c.multiply a b).1 ∧
    (∀ r c', c.divide a b = (.ok r, c') → c'.last_result = some r) ∧
    (∀ r c', c.calculate_average xs = (.ok r, c') → c'.last_result = some r) ∧
    (∀ r c', c.chain_operation op v = (.ok r, c') → c'.last_result = some r) :=
  ⟨add_last c a b, multiply_last c a b,
   fun r c' h => divide_last c a b r c' h,
   fun r c' h => average_last c xs r c' h,
   fun r c' h => chain_last c op v r c' h⟩

/-- C9 (witness): the divide conjunct exercised at `divide(10, 4)` on a fresh
`Calculator(precision=2)`. -/
theorem C9_last_result_returned_witness :
    ({ precision := (Calculator.init 2).precision,
       history := (Calculator.init 2).history ++
         [fmtNum 10 ++ " / " ++ fmtNum 4 ++ " = "
           ++ fmtNum (pyRound (10 / 4) (Calculator.init 2).precision)],
       last_result := some (pyRound (10 / 4) (Calculator.init 2).precision) }
      : Calculator).last_result
        = some (pyRound (10 / 4) (Calculator.init 2).precision) :=
  (C9_last_result_returned (Calculator.init 2) 10 4 [] "add" 0).2.2.1
    (pyRound (10 / 4) (Calculator.init 2).precision) _
    (Calculator.divide_ok_spec (Calculator.init 2) 10 4 (by norm_num))

/-- C10: a `chain_operation` call that fails its own validation (absent
`last_result`, or an unrecognised operation name) returns the error and
leaves the state completely unchanged — in contrast to a failed `divide`,
which appends an error entry to the history. -/
theorem C10_chain_validation_pure (c : Calculator) (op : String) (v a : ℚ) :
    (c.last_result = none →
      c.chain_operation op v = (.error "No previous result to chain", c)) ∧
    (∀ lr, c.last_result = some lr → op ≠ "add" → op ≠ "mul" → op ≠ "div" →
      c.chain_operation op v = (.error ("Unknown operation: " ++ op), c)) ∧
    (c.divide a 0).2.history.length = c.history.length + 1 := by
  refine ⟨fun h => Calculator.chain_none_spec c op v h,
    fun lr h h1 h2 h3 => Calculator.chain_unknown_spec c op v lr h h1 h2 h3, ?_⟩
  rw [Calculator.divide_err_spec]
  simp

/-- C10 (witness): both validation failures exercised concretely — a fresh
calculator for the missing-previous-result case, and a calculator holding a
result for the unknown-name case. -/
theorem C10_chain_validation_pure_witness :
    (Calculator.init 2).chain_operation "add" 5
        = (.error "No previous result to chain", Calculator.init 2) ∧
    ({ precision := 2, history := [], last_result := some 8 } : Calculator).chain_operation
        "foo" 5
        = (.error ("Unknown operation: " ++ "foo"),
           { precision := 2, history := [], last_result := some 8 }) :=
  ⟨(C10_chain_validation_pure (Calculator.init 2) "add" 5 0).1 rfl,
   (C10_chain_validation_pure
      { precision := 2, history := [], last_result := some 8 } "foo" 5 0).2.1
      8 rfl (by decide) (by decide) (by decide)⟩

end Calc
